import Mathlib

/-!
Verification of the OpenABE (tegmentum fork) core against its specification.

The definitions below are shallow embeddings of the C/C++ sources:
  * `src/zml/zelement_mcl.c`   — MCL bignum backend (decimal-string comparison),
  * `src/zml/zelement.c`       — RELIC/OpenSSL bignum backend (exact big integers),
  * `src/zml/zelement_bp.cpp`  — the ZP / G1 / G2 / GT classes and `multi_bp_map_op`,
  * `src/zml/zpairing.cpp`     — `OpenABEPairing::multi_pairing`,
  * `src/zml/zstandard_serialization.cpp` — the standard serializer,
  * `src/utils/zciphertext.cpp` — the ciphertext container,
  * `src/utils/zpolicy.cpp`    — policy trees and canonicalization.

Machine integers are modelled as `Nat` (bytes are `Nat`s with explicit `< 256`
hypotheses where relevant); C++ `throw` is modelled by `Except`; functions that
report errors with `fprintf(stderr, ...)` and a plain `return` keep a separate
log channel, distinct from the thrown-exception channel that a caller can
observe.
-/

namespace OpenABE

/-- The OpenABE error kinds that appear in the code paths modelled here
    (`OpenABE_ERROR_*` in the C++ sources). -/
inductive OpenABEError where
  | INVALID_INPUT
  | INVALID_LENGTH
  | INVALID_LIBVERSION
  | INVALID_CIPHERTEXT_BODY
  | SERIALIZATION_FAILED
  | DIVIDE_BY_ZERO
  | NOT_IMPLEMENTED
  | ELEMENT_NOT_INITIALIZED
  deriving DecidableEq

/-- Big-endian digit string read as a number in base `B`:
    `bn_read_bin` in RELIC reads bytes most-significant first (base 256);
    the same fold reads a decimal string (base 10). -/
def fromBE (B : Nat) (l : List Nat) : Nat :=
  l.foldl (fun acc d => acc * B + d) 0

/-- Minimal big-endian digit expansion of `n` in base `B` (no leading zeros;
    the empty list for 0, matching RELIC's `bn_size_bin 0 = 0`). -/
def minBE (B n : Nat) : List Nat :=
  (Nat.digits B n).reverse

/-- Decimal representation of a natural as produced by `mclBnFr_getStr`
    (most-significant digit first, and the single digit `0` for zero). -/
def decRepr (n : Nat) : List Nat :=
  if n = 0 then [0] else minBE 10 n

/-- C `strcmp` on two digit strings (each digit is one character; the digit
    order coincides with the character order of '0'..'9'). A strict prefix
    compares as smaller, as with NUL-terminated strings. -/
def strcmpD : List Nat → List Nat → Int
  | [], [] => 0
  | [], _ :: _ => -1
  | _ :: _, [] => 1
  | a :: as, b :: bs =>
    if a < b then -1 else if b < a then 1 else strcmpD as bs

/-- Model of `zml_bignum_cmp` of the MCL backend (`src/zml/zelement_mcl.c`):
    equal values compare equal; otherwise the decimal strings are compared
    by length first ("longer = bigger for positive numbers") and by
    `strcmp` when the lengths agree.  Returns `BN_CMP_LT = -1`,
    `BN_CMP_EQ = 0` or `BN_CMP_GT = 1`. -/
def zml_bignum_cmp_mcl (a b : Nat) : Int :=
  if a = b then 0
  else
    let da := decRepr a
    let db := decRepr b
    if da.length < db.length then -1
    else if db.length < da.length then 1
    else
      let c := strcmpD da db
      if c < 0 then -1 else if 0 < c then 1 else 0

/-- The scalar-field element class `ZP` of `src/zml/zelement_bp.cpp`:
    a bignum value together with a cached order and the `isOrderSet` flag
    (`isInit` is true for every constructed object and is omitted). -/
structure ZP where
  val : Nat
  ord : Nat
  orderSet : Bool
  deriving DecidableEq

/-- Model of `ZP::ZP(uint32_t)`: sets the value, leaves the order at 0 and unset. -/
def ZP.fromUint (x : Nat) : ZP := ⟨x, 0, false⟩

/-- Model of `operator<(const ZP&, const ZP&)`: `zml_bignum_cmp(x, y) == BN_CMP_LT`. -/
def ZP.ltOp (x y : ZP) : Bool := zml_bignum_cmp_mcl x.val y.val == -1

/-- Model of `operator<=(const ZP&, const ZP&)`: `zml_bignum_cmp(x, y) <= BN_CMP_EQ`. -/
def ZP.leOp (x y : ZP) : Bool := zml_bignum_cmp_mcl x.val y.val ≤ 0

/-- Model of `operator>(const ZP&, const ZP&)`: `zml_bignum_cmp(x, y) == BN_CMP_GT`. -/
def ZP.gtOp (x y : ZP) : Bool := zml_bignum_cmp_mcl x.val y.val == 1

/-- Model of `operator>=(const ZP&, const ZP&)`: `zml_bignum_cmp(x, y) >= BN_CMP_EQ`. -/
def ZP.geOp (x y : ZP) : Bool := 0 ≤ zml_bignum_cmp_mcl x.val y.val

/-! ### ZP division and deserialization (exact-bignum backends) -/

/-- Model of `zml_bignum_mod_inv` of `src/zml/zelement.c` (RELIC path): extended gcd of
    `b` and `o`, adding `o` when the cofactor comes out negative. -/
def zml_bignum_mod_inv (b o : Nat) : Nat :=
  (((Nat.gcdA b o) % (o : Int) + o) % (o : Int)).toNat

/-- Model of `zml_bignum_div` of `src/zml/zelement.c`: `r = 1/y mod o`, then `r·x mod o`
    unless `x = 1`. -/
def zml_bignum_div (x y o : Nat) : Nat :=
  let r := zml_bignum_mod_inv y o
  if x = 1 then r else r * x % o

/-- Model of `operator/(const ZP&, const ZP&)` from `src/zml/zelement_bp.cpp`.
    When the divisor is zero the C++ prints "Divide by zero error!" and
    executes `return OpenABE_ERROR_DIVIDE_BY_ZERO;` in a function whose return
    type is `ZP`: the error enum is converted to a `ZP` value through the
    implicit `ZP(uint32_t)` constructor.  `dbzCode` is the numeric value of
    `OpenABE_ERROR_DIVIDE_BY_ZERO` (the enum lives outside this tree).
    The `ASSERT` on the order flags throws `INVALID_INPUT`. -/
def ZP.divOp (dbzCode : Nat) (x y : ZP) : Except OpenABEError ZP :=
  if y.val = 0 then
    .ok (ZP.fromUint dbzCode)
  else if x.orderSet || y.orderSet then
    let o := if x.orderSet then x.ord else y.ord
    .ok ⟨zml_bignum_div x.val y.val o, o, true⟩
  else
    .error .INVALID_INPUT

/-- Model of `zml_bignum_fromBin` of the exact backends (`bn_read_bin` / `BN_bin2bn`):
    big-endian bytes to integer. -/
def beBytesToNat (bytes : List Nat) : Nat := fromBE 256 bytes

/-- Model of `ZP::ZP(uint8_t *bstr, uint32_t bstr_len, bignum_t o)`:
    `zml_bignum_fromBin` followed by an unconditional `zml_bignum_mod`. -/
def ZP.fromBytes (bytes : List Nat) (o : Nat) : ZP :=
  ⟨beBytesToNat bytes % o, o, true⟩

/-- The `OpenABE_ELEMENT_ZP` tag byte (`src/include/openabe/utils/zconstants.h`). -/
def OpenABE_ELEMENT_ZP : Nat := 0xB1

/-- Model of `ZP::deserialize` from `src/zml/zelement_bp.cpp`: checks the tag byte,
    reads the 2-byte big-endian length, requires the input to be exactly
    `len + 3` bytes, reads the value big-endian, and reduces modulo the order
    only when the comparison is `BN_CMP_GT` (strictly greater). Error branches
    leave the element unchanged. -/
def ZP.deserialize (z : ZP) (input : List Nat) : ZP :=
  if input.headD 0 = OpenABE_ELEMENT_ZP ∧ 3 < input.length then
    let len := input.getD 1 0 * 256 + input.getD 2 0
    if input.length = len + 3 then
      let v := beBytesToNat ((input.drop 3).take len)
      if z.orderSet ∧ z.ord < v then ⟨v % z.ord, z.ord, z.orderSet⟩
      else ⟨v, z.ord, z.orderSet⟩
    else z
  else z

/-! ### Standard serialization (`src/zml/zstandard_serialization.cpp`) -/

/-- Wire identifiers of the curves (`OpenABECurveID` in
    `src/include/openabe/utils/zconstants.h`). -/
def OpenABE_BN_P254_ID : Nat := 0x6F
def OpenABE_BN_P256_ID : Nat := 0x73
def OpenABE_BN_P382_ID : Nat := 0xE4
def OpenABE_BN_P638_ID : Nat := 0x8D
def OpenABE_NIST_P256_ID : Nat := 0x32
def OpenABE_NIST_P384_ID : Nat := 0x5A
def OpenABE_NIST_P521_ID : Nat := 0xB7

/-- Model of `StandardPairingSerializer::get_field_size`: bytes per Fp element. -/
def get_field_size (curve : Nat) : Nat :=
  if curve = OpenABE_BN_P254_ID ∨ curve = OpenABE_BN_P256_ID then 32
  else if curve = OpenABE_BN_P382_ID then 48
  else if curve = OpenABE_BN_P638_ID then 80
  else if curve = OpenABE_NIST_P256_ID then 32
  else if curve = OpenABE_NIST_P384_ID then 48
  else if curve = OpenABE_NIST_P521_ID then 66
  else 32

/-- Model of `field_element_to_bytes` (big-endian branch): zero-pad on the left to
    `field_size` bytes, then the minimal big-endian bytes of the value. -/
def field_element_to_bytes (v fs : Nat) : List Nat :=
  List.replicate (fs - (minBE 256 v).length) 0 ++ minBE 256 v

/-- A G1 element: the point at infinity or affine coordinates. -/
inductive G1Point where
  | inf
  | pt (x y : Nat)
  deriving DecidableEq

/-- A G2 element over Fp2: infinity or coordinates `x = x0 + x1·u`,
    `y = y0 + y1·u`. -/
inductive G2Point where
  | inf
  | pt (x0 x1 y0 y1 : Nat)
  deriving DecidableEq

/-- Model of `y_is_lexicographically_largest(y, p)`: `y > p >> 1` (the callers pass the
    group order for `p`). -/
def y_is_lex_largest (y r : Nat) : Bool := r / 2 < y

/-- Model of `serializeG1_Ethereum`: 64 zero bytes for infinity, else
    `x ‖ y` zero-padded to 32 bytes each. -/
def serializeG1_Ethereum : G1Point → List Nat
  | .inf => List.replicate 64 0
  | .pt x y => field_element_to_bytes x 32 ++ field_element_to_bytes y 32

/-- Model of `serializeG1_ZCash` with the default `compressed = true`:
    infinity is `0xC0` followed by zeros; otherwise the `field_size`-byte
    big-endian `x` with `COMPRESSION_FLAG` (and `Y_SIGN_FLAG` when `y` is
    lexicographically largest) OR-ed into the first byte. -/
def serializeG1_ZCash (r fs : Nat) : G1Point → List Nat
  | .inf => 0xC0 :: List.replicate (fs - 1) 0
  | .pt x y =>
    let flags : Nat := if y_is_lex_largest y r then 0x80 ||| 0x20 else 0x80
    match field_element_to_bytes x fs with
    | [] => []
    | b :: bs => (b ||| flags) :: bs

/-- Model of `serializeG2_SEC1` — the body ignores its `compressed` argument and always
    writes the uncompressed form: `0x00` alone for infinity, else
    `0x04 ‖ x1 ‖ x0 ‖ y1 ‖ y0` with each coordinate `field_size` bytes. -/
def serializeG2_SEC1 (fs : Nat) : G2Point → List Nat
  | .inf => [0x00]
  | .pt x0 x1 y0 y1 =>
    0x04 :: (field_element_to_bytes x1 fs ++ field_element_to_bytes x0 fs ++
             field_element_to_bytes y1 fs ++ field_element_to_bytes y0 fs)

/-- Model of `serializeG2_ZCash`: delegates to `serializeG2_SEC1(out, point, false)`. -/
def serializeG2_ZCash (fs : Nat) (p : G2Point) : List Nat :=
  serializeG2_SEC1 fs p

/-- Model of `serializeG2_Ethereum`: 128 zero bytes for infinity, else
    `x1 ‖ x0 ‖ y1 ‖ y0`, 32 bytes each. -/
def serializeG2_Ethereum : G2Point → List Nat
  | .inf => List.replicate 128 0
  | .pt x0 x1 y0 y1 =>
    field_element_to_bytes x1 32 ++ field_element_to_bytes x0 32 ++
    field_element_to_bytes y1 32 ++ field_element_to_bytes y0 32

/-- Model of `deserializeG2_ZCash`: the first byte carries the ZCash flag bits;
    an infinity flag yields the identity, the compressed path masks the top
    three bits of `x` and decompresses (`decompress` stands for the
    backend-specific `decompressG2Point`, returning `none` when no square
    root exists), the uncompressed path expects exactly `4·field_size` bytes.
    `r` is the order used by `y_is_lexicographically_largest` and the
    root-selection subtraction. -/
def deserializeG2_ZCash (decompress : Nat → Nat → Bool → Option (Nat × Nat))
    (r fs : Nat) (input : List Nat) : Except OpenABEError G2Point :=
  if input.length < 2 * fs then .error .SERIALIZATION_FAILED
  else
    let flags := input.headD 0
    if flags &&& 0x40 ≠ 0 then .ok .inf
    else if flags &&& 0x80 ≠ 0 then
      if input.length ≠ 2 * fs then .error .SERIALIZATION_FAILED
      else
        let x1 := beBytesToNat ((flags &&& 0x1F) :: (input.drop 1).take (fs - 1))
        let x0 := beBytesToNat ((input.drop fs).take fs)
        match decompress x0 x1 (flags &&& 0x20 ≠ 0) with
        | none => .error .SERIALIZATION_FAILED
        | some (y0, y1) =>
          if (y_is_lex_largest y1 r ≠ (flags &&& 0x20 ≠ 0)) then
            .ok (.pt x0 x1 (r - y0) (r - y1))
          else
            .ok (.pt x0 x1 y0 y1)
    else
      if input.length ≠ 4 * fs then .error .SERIALIZATION_FAILED
      else
        let x1 := beBytesToNat (input.take fs)
        let x0 := beBytesToNat ((input.drop fs).take fs)
        let y1 := beBytesToNat ((input.drop (2 * fs)).take fs)
        let y0 := beBytesToNat ((input.drop (3 * fs)).take fs)
        .ok (.pt x0 x1 y0 y1)

/-! ### Multi-pairing (`multi_bp_map_op` and `OpenABEPairing::multi_pairing`) -/

/-- Model of `multi_bp_map_op` from `src/zml/zelement_bp.cpp`: a length mismatch throws
    `OpenABE_ERROR_INVALID_LENGTH`; `n = 0` sets the result to the GT identity
    (`mclBnGT_setInt(&gt, 1)`); otherwise the loop computes each pairing and
    copies the first one, multiplying the rest in.  The pairing map and GT
    multiplication are the backend calls, passed in as parameters. -/
def multi_bp_map_op {A B C : Type} (pair : A → B → C) (mulGT : C → C → C)
    (oneGT : C) (g1 : List A) (g2 : List B) : Except OpenABEError C :=
  if g1.length ≠ g2.length then .error .INVALID_LENGTH
  else
    match List.zipWith pair g1 g2 with
    | [] => .ok oneGT
    | p :: ps => .ok (ps.foldl mulGT p)

/-- Model of `OpenABEPairing::multi_pairing` (`src/zml/zpairing.cpp`): calls
    `multi_bp_map_op` and renormalizes an identity result with
    `setIdentity()`. -/
def multi_pairing {A B C : Type} [DecidableEq C] (pair : A → B → C)
    (mulGT : C → C → C) (oneGT : C) (g1 : List A) (g2 : List B) :
    Except OpenABEError C :=
  match multi_bp_map_op pair mulGT oneGT g1 g2 with
  | .error e => .error e
  | .ok g => .ok (if g = oneGT then oneGT else g)

/-! ### Ciphertext container (`src/utils/zciphertext.cpp`) -/

def UID_LEN : Nat := 16
def OpenABE_LIBRARY_VERSION : Nat := 170

/-- The valid single-byte curve identifiers (`OpenABECurveID` enum). -/
def validCurveIDs : List Nat :=
  [0x32, 0x5A, 0xB7, 0x61, 0x6F, 0x73, 0x3C, 0xE4, 0xE5, 0x8D,
   0xA1, 0xA2, 0xA3, 0xA4, 0xA5, 0xB1, 0xB2, 0xB3, 0xC1, 0xD1]

/-- Modelled from the spec: `OpenABE_getCurveID` is implemented outside this
    tree; §6 requires single-byte curve wire ids to be "preserved verbatim",
    so a valid wire byte maps to itself and anything else to
    `OpenABE_NONE_ID = 0`. -/
def OpenABE_getCurveID (b : Nat) : Nat :=
  if b ∈ validCurveIDs then b else 0

/-- Modelled from the spec: `OpenABE_getSchemeID` is implemented outside this
    tree; §6 says "the caller supplies the id; the container stores it
    uninterpreted", so the byte maps to itself. -/
def OpenABE_getSchemeID (b : Nat) : Nat := b

/-- 4-byte big-endian encoding of a 32-bit length. -/
def be32 (n : Nat) : List Nat :=
  [n / 2 ^ 24 % 256, n / 2 ^ 16 % 256, n / 2 ^ 8 % 256, n % 256]

/-- Modelled from the spec (§4.B): `smartPack` writes a 4-byte big-endian
    length followed by the bytes (`OpenABEByteString` is outside this tree). -/
def smartPack (inner : List Nat) : List Nat := be32 inner.length ++ inner

/-- Modelled from the spec (§4.B): `smartUnpack` reads a 4-byte big-endian
    length at `index`, then that many bytes, advancing the index. -/
def smartUnpack (input : List Nat) (index : Nat) : List Nat × Nat :=
  let len := fromBE 256 ((input.drop index).take 4)
  ((input.drop (index + 4)).take len, index + 4 + len)

/-- The header-relevant state of an `OpenABECiphertext`; `body` stands for the
    serialized container elements and `groupSet` for the `BpGroup` handle. -/
structure Ciphertext where
  libraryVersion : Nat
  curveID : Nat
  algorithmID : Nat
  uid : List Nat
  uidExternal : Bool
  body : List Nat
  groupSet : Bool
  deriving DecidableEq

/-- Model of `OpenABECiphertext::OpenABECiphertext()`: curve `OpenABE_NONE_ID`, scheme
    `OpenABE_SCHEME_NONE`, current library version, uid zero-filled to 16
    bytes, external flag unset. -/
def Ciphertext.init : Ciphertext :=
  ⟨OpenABE_LIBRARY_VERSION, 0, 0, List.replicate UID_LEN 0, false, [], false⟩

/-- Model of `OpenABECiphertext::OpenABECiphertext(const OpenABEByteString &uid)`:
    a uid of at least 16 bytes is stored verbatim with the external flag set;
    shorter ones are ignored (zero-filled uid, flag unset). -/
def Ciphertext.mkWithUid (uid : List Nat) : Ciphertext :=
  if UID_LEN ≤ uid.length then
    { Ciphertext.init with uid := uid, uidExternal := true }
  else
    Ciphertext.init

/-- Model of `rng->getRandomBytes(&uid, UID_LEN)`: the supplied RNG is a byte stream. -/
def rngBytes (rng : Nat → Nat) (n : Nat) : List Nat := (List.range n).map rng

/-- Model of `OpenABECiphertext::setHeader(curveID, scheme_type, OpenABERNG*)`:
    sets the header fields and draws a fresh 16-byte uid from the RNG unless
    one was set externally. -/
def Ciphertext.setHeaderRng (c : Ciphertext) (curveID schemeID : Nat)
    (rng : Nat → Nat) : Ciphertext :=
  let c1 := { c with curveID := curveID, algorithmID := schemeID,
                     libraryVersion := OpenABE_LIBRARY_VERSION }
  if c.uidExternal then c1 else { c1 with uid := rngBytes rng UID_LEN }

/-- Model of `OpenABECiphertext::getHeader`: `libVersion ‖ curveID ‖ algID ‖ uid`
    (the three scalar fields pass through `push_back(uint8_t)`). -/
def Ciphertext.getHeader (c : Ciphertext) : List Nat :=
  [c.libraryVersion % 256, c.curveID % 256, c.algorithmID % 256] ++ c.uid

/-- Model of `OpenABECiphertext::exportToBytes`:
    `smartPack(header) ‖ smartPack(serialized body)`. -/
def Ciphertext.exportToBytes (c : Ciphertext) : List Nat :=
  smartPack c.getHeader ++ smartPack c.body

/-- The three stderr reports `loadFromBytes` can emit. -/
inductive LoadLog where
  | invalidInput
  | errCode (e : OpenABEError)
  | invalidHeader
  deriving DecidableEq

/-- Outcome of `loadFromBytes`: the container state, the stderr report, and
    the typed error propagated to the caller — the C++ function returns
    `void` and never throws on its own, so `thrown` is what a caller can
    actually observe as an error. -/
structure LoadResult where
  state : Ciphertext
  log : Option LoadLog
  thrown : Option OpenABEError
  deriving DecidableEq

/-- Model of `OpenABECiphertext::loadFromBytes` from `src/utils/zciphertext.cpp`:
    every failure branch prints to stderr and returns; the version check uses
    `at(0) <= OpenABE_LIBRARY_VERSION`, the body must be non-empty, and the
    header fields are only applied on the success path (the group handle is
    resolved from the curve id when absent). -/
def Ciphertext.loadFromBytes (c : Ciphertext) (input : List Nat) : LoadResult :=
  let hdrLen := 3 + UID_LEN
  if input.length < hdrLen then ⟨c, some .invalidInput, none⟩
  else
    let hdrRes := smartUnpack input 0
    if hdrRes.1.length = hdrLen then
      if ¬ (hdrRes.1.headD 0 ≤ OpenABE_LIBRARY_VERSION) then
        ⟨c, some (.errCode .INVALID_LIBVERSION), none⟩
      else
        let c1 := { c with libraryVersion := hdrRes.1.headD 0 }
        let body := (smartUnpack input hdrRes.2).1
        if ¬ (0 < body.length) then
          ⟨c1, some (.errCode .INVALID_CIPHERTEXT_BODY), none⟩
        else
          let c2 := { c1 with
            curveID := OpenABE_getCurveID (hdrRes.1.getD 1 0),
            algorithmID := OpenABE_getSchemeID (hdrRes.1.getD 2 0),
            uid := (hdrRes.1.drop 3).take UID_LEN }
          let c3 := if ¬ c2.groupSet ∧ c2.curveID ≠ 0 then
              { c2 with groupSet := true } else c2
          ⟨{ c3 with body := body }, none, none⟩
    else ⟨c, some .invalidHeader, none⟩

/-! ### Policy trees (`src/utils/zpolicy.cpp`) -/

/-- The gate kinds of `OpenABETreeNode` (leaves are a separate constructor). -/
inductive GateKind where
  | andGate
  | orGate
  | threshGate
  deriving DecidableEq

/-- An `OpenABETreeNode`: a leaf with an attribute `pre`/`label`, or a gate
    with its threshold value `k` and subnodes. -/
inductive TreeNode where
  | leaf (pre lbl : String)
  | gate (g : GateKind) (k : Nat) (children : List TreeNode)

/-- Model of `getNodeType`, as compared by `flattenAssociative`. -/
def typeOfNode : TreeNode → Option GateKind
  | .leaf _ _ => none
  | .gate g _ _ => some g

/-- The subnode list of a node. -/
def childrenOf : TreeNode → List TreeNode
  | .leaf _ _ => []
  | .gate _ _ cs => cs

mutual
/-- Model of `OpenABETreeNode::toString`: a leaf prints `prefix:label` (or the bare
    label); a 2-child node prints infix `(X and Y)` / `(X or Y)` — and `()`
    for a 2-child threshold gate, whose operator text is never appended;
    other arities print `k of (c1, c2, …)` for AND/OR (k = implicit
    threshold) and a bare `(c1, c2, …)` for threshold gates, the trailing
    two characters of the accumulated string being erased before the
    closing parenthesis. -/
def nodeToString : TreeNode → String
  | .leaf pre lbl => if pre ≠ "" then pre ++ ":" ++ lbl else lbl
  | .gate g _ cs =>
    let strs := listToStrings cs
    if cs.length = 2 then
      (match g with
        | .andGate => "(" ++ strs.headD "" ++ " and " ++ strs.getD 1 "" ++ ")"
        | .orGate => "(" ++ strs.headD "" ++ " or " ++ strs.getD 1 "" ++ ")"
        | .threshGate => "()")
    else
      let pre := match g with
        | .andGate => Nat.repr cs.length ++ " of "
        | .orGate => "1 of "
        | .threshGate => ""
      let acc := pre ++ "(" ++ String.join (strs.map (fun s => s ++ ", "))
      acc.dropRight 2 ++ ")"
def listToStrings : List TreeNode → List String
  | [] => []
  | c :: cs => nodeToString c :: listToStrings cs
end

/-- Insertion into a sorted list, before the first strictly-larger key:
    the deterministic stable refinement of `std::sort` over the
    `(child->toString(), child)` pairs with comparator `a.first < b.first`. -/
def insertSorted (x : TreeNode) : List TreeNode → List TreeNode
  | [] => [x]
  | y :: ys =>
    if nodeToString x ≤ nodeToString y then x :: y :: ys
    else y :: insertSorted x ys

/-- The sort used by `sortChildren`. -/
def sortNodes : List TreeNode → List TreeNode
  | [] => []
  | x :: xs => insertSorted x (sortNodes xs)

/-- Model of `OpenABEPolicy::sortChildren`: AND, OR and THRESHOLD gates sort their
    subnodes by the `toString` of each subtree (nothing to do below two
    children). -/
def sortChildren (cs : List TreeNode) : List TreeNode :=
  if cs.length ≤ 1 then cs else sortNodes cs

/-- One step of `OpenABEPolicy::flattenAssociative`'s rebuild loop. -/
def flattenStep (g : GateKind) : List TreeNode → List TreeNode
  | [] => []
  | c :: cs =>
    (if typeOfNode c = some g then childrenOf c else [c]) ++ flattenStep g cs

/-- Model of `OpenABEPolicy::flattenAssociative`: only AND and OR gates flatten, and
    only when some child has the same gate type. -/
def flattenAssociative (g : GateKind) (cs : List TreeNode) : List TreeNode :=
  if g = .threshGate then cs
  else if cs.any (fun c => typeOfNode c = some g) then flattenStep g cs
  else cs

mutual
/-- Model of `OpenABEPolicy::canonicalizeNode`: leaves are canonical; a gate first
    canonicalizes all children recursively, then flattens associative
    operators, then sorts the children. -/
def canonicalizeNode : TreeNode → TreeNode
  | .leaf pre lbl => .leaf pre lbl
  | .gate g k cs =>
    .gate g k (sortChildren (flattenAssociative g (canonicalizeList cs)))
def canonicalizeList : List TreeNode → List TreeNode
  | [] => []
  | c :: cs => canonicalizeNode c :: canonicalizeList cs
end

/-- Model of `OpenABEPolicy::canonicalize`: no-op on an absent root. -/
def canonicalizePolicy : Option TreeNode → Option TreeNode
  | none => none
  | some t => some (canonicalizeNode t)

/-- Model of `OpenABEPolicy::toString` of the (possibly absent) root. -/
def policyToString : Option TreeNode → String
  | none => ""
  | some t => nodeToString t

mutual
/-- A node is canonical when all its children are, no AND/OR child shares its
    parent's gate type, and the children are sorted by their rendering. -/
def CanonicalNode : TreeNode → Prop
  | .leaf _ _ => True
  | .gate g _ cs =>
    CanonicalList cs ∧
    (g ≠ .threshGate → ∀ c ∈ cs, typeOfNode c ≠ some g) ∧
    List.Pairwise (fun a b => nodeToString a ≤ nodeToString b) cs
def CanonicalList : List TreeNode → Prop
  | [] => True
  | c :: cs => CanonicalNode c ∧ CanonicalList cs
end

/-! ### Auxiliary predicates and constants for the serializer claims -/

/-- The G1 coordinates fit in `fs` bytes (true of any field element). -/
def G1Point.fits (fs : Nat) : G1Point → Prop
  | .inf => True
  | .pt x y => x < 256 ^ fs ∧ y < 256 ^ fs

/-- The G2 coordinates fit in `fs` bytes (true of any field element). -/
def G2Point.fits (fs : Nat) : G2Point → Prop
  | .inf => True
  | .pt x0 x1 y0 y1 =>
    x0 < 256 ^ fs ∧ x1 < 256 ^ fs ∧ y0 < 256 ^ fs ∧ y1 < 256 ^ fs

/-- The BN254 group order (RELIC's `BN_P254` / the `bp_get_order` value). -/
def bn254_order : Nat :=
  0x2523648240000001BA344D8000000007FF9F800000000010A10000000000000D

/-- The 32 big-endian bytes of `bn254_order`. -/
def bn254_order_bytes : List Nat :=
  [0x25, 0x23, 0x64, 0x82, 0x40, 0x00, 0x00, 0x01,
   0xBA, 0x34, 0x4D, 0x80, 0x00, 0x00, 0x00, 0x07,
   0xFF, 0x9F, 0x80, 0x00, 0x00, 0x00, 0x00, 0x10,
   0xA1, 0x00, 0x00, 0x00, 0x00, 0x00, 0x00, 0x0D]

instance {ε α : Type} [DecidableEq ε] [DecidableEq α] :
    DecidableEq (Except ε α) := fun x y =>
  match x, y with
  | .ok a, .ok b => decidable_of_iff (a = b) (by simp)
  | .error a, .error b => decidable_of_iff (a = b) (by simp)
  | .ok _, .error _ => isFalse (by simp)
  | .error _, .ok _ => isFalse (by simp)

end OpenABE

namespace OpenABE

/-! ### Facts about decimal representations (for the comparison claim) -/

theorem fromBE_nil (B : Nat) : fromBE B [] = 0 := rfl

theorem fromBE_foldl (B : Nat) (l : List Nat) :
    ∀ acc : Nat, l.foldl (fun a d => a * B + d) acc =
      acc * B ^ l.length + fromBE B l := by
  induction l with
  | nil => intro acc; simp [fromBE]
  | cons d ds ih =>
    intro acc
    have h1 := ih (acc * B + d)
    have h2 := ih d
    have h3 : fromBE B (d :: ds) = d * B ^ ds.length + fromBE B ds := by
      show (d :: ds).foldl (fun a d => a * B + d) 0 = _
      simp only [List.foldl_cons]
      rw [show (0 : Nat) * B + d = d by ring, h2]
    simp only [List.foldl_cons, List.length_cons]
    rw [h1, h3]
    ring

theorem fromBE_cons (B : Nat) (d : Nat) (l : List Nat) :
    fromBE B (d :: l) = d * B ^ l.length + fromBE B l := by
  show (d :: l).foldl (fun a d => a * B + d) 0 = _
  simp only [List.foldl_cons]
  rw [show (0 : Nat) * B + d = d by ring, fromBE_foldl]

theorem fromBE_lt (B : Nat) (l : List Nat) (hd : ∀ d ∈ l, d < B) :
    fromBE B l < B ^ l.length := by
  induction l with
  | nil => simp [fromBE]
  | cons a as ih =>
    have ha : a < B := hd a (by simp)
    have has : ∀ d ∈ as, d < B := fun d h => hd d (by simp [h])
    have h1 : fromBE B as < B ^ as.length := ih has
    rw [fromBE_cons]
    calc a * B ^ as.length + fromBE B as
        < a * B ^ as.length + B ^ as.length := by omega
      _ = (a + 1) * B ^ as.length := by ring
      _ ≤ B * B ^ as.length := by
          exact Nat.mul_le_mul_right _ (by omega)
      _ = B ^ (a :: as).length := by
          simp [List.length_cons, pow_succ]; ring

/-- Reading back the digit expansion recovers the number. -/
theorem fromBE_eq_ofDigits (B : Nat) (l : List Nat) :
    fromBE B l = Nat.ofDigits B l.reverse := by
  induction l with
  | nil => simp [fromBE, Nat.ofDigits]
  | cons a as ih =>
    rw [fromBE_cons, List.reverse_cons, Nat.ofDigits_append, ih]
    simp [Nat.ofDigits_singleton]
    ring

theorem fromBE_minBE (B n : Nat) : fromBE B (minBE B n) = n := by
  rw [fromBE_eq_ofDigits, minBE, List.reverse_reverse, Nat.ofDigits_digits]

theorem fromBE_decRepr (n : Nat) : fromBE 10 (decRepr n) = n := by
  by_cases h : n = 0
  · simp [decRepr, h, fromBE]
  · simp [decRepr, h, fromBE_minBE]

theorem decRepr_digits_lt (n : Nat) : ∀ d ∈ decRepr n, d < 10 := by
  intro d hd
  by_cases h : n = 0
  · simp [decRepr, h] at hd; omega
  · simp only [decRepr, h, if_false, minBE, List.mem_reverse] at hd
    exact Nat.digits_lt_base (by norm_num) hd

theorem decRepr_length_pos (n : Nat) : 0 < (decRepr n).length := by
  by_cases h : n = 0
  · simp [decRepr, h]
  · simp only [decRepr, h, if_false, minBE, List.length_reverse]
    have hne : Nat.digits 10 n ≠ [] := Nat.digits_ne_nil_iff_ne_zero.mpr h
    cases hq : Nat.digits 10 n with
    | nil => exact absurd hq hne
    | cons a as => simp

/-- A strictly shorter decimal representation means a strictly smaller value. -/
theorem decRepr_length_lt_imp (a b : Nat)
    (h : (decRepr a).length < (decRepr b).length) : a < b := by
  have hb0 : b ≠ 0 := by
    intro hb
    subst hb
    have h1 := decRepr_length_pos a
    have h2 : (decRepr 0).length = 1 := by simp [decRepr]
    omega
  by_cases ha0 : a = 0
  · exact ha0 ▸ Nat.pos_of_ne_zero hb0
  · -- both nonzero: lengths are the digit-list lengths
    have hla : (decRepr a).length = (Nat.digits 10 a).length := by
      simp [decRepr, ha0, minBE]
    have hlb : (decRepr b).length = (Nat.digits 10 b).length := by
      simp [decRepr, hb0, minBE]
    rw [hla, hlb] at h
    by_contra hab
    push_neg at hab
    have := Nat.le_digits_len_le 10 b a hab
    omega

/-- The strcmp model decides numeric order on same-length bounded digit strings. -/
theorem strcmpD_neg_imp (B : Nat) :
    ∀ (l1 l2 : List Nat), l1.length = l2.length →
    (∀ d ∈ l1, d < B) → (∀ d ∈ l2, d < B) →
    strcmpD l1 l2 < 0 → fromBE B l1 < fromBE B l2 := by
  intro l1
  induction l1 with
  | nil =>
    intro l2 hlen _ _ hc
    cases l2 with
    | nil => simp [strcmpD] at hc
    | cons b bs => simp at hlen
  | cons a as ih =>
    intro l2 hlen h1 h2 hc
    cases l2 with
    | nil => simp at hlen
    | cons b bs =>
      simp only [List.length_cons, Nat.succ_inj] at hlen
      simp only [strcmpD] at hc
      by_cases hab : a < b
      · -- head strictly smaller: the whole value is smaller
        have hThis : fromBE B as < B ^ as.length :=
          fromBE_lt B as (fun d h => h1 d (by simp [h]))
        rw [fromBE_cons, fromBE_cons, hlen]
        calc a * B ^ bs.length + fromBE B as
            < a * B ^ bs.length + B ^ bs.length := by rw [← hlen]; omega
          _ = (a + 1) * B ^ bs.length := by ring
          _ ≤ b * B ^ bs.length := Nat.mul_le_mul_right _ (by omega)
          _ ≤ b * B ^ bs.length + fromBE B bs := Nat.le_add_right _ _
      · simp only [hab, if_false] at hc
        by_cases hba : b < a
        · simp [hba] at hc
        · simp only [hba, if_false] at hc
          have hEq : a = b := by omega
          subst hEq
          have := ih bs hlen (fun d h => h1 d (by simp [h]))
            (fun d h => h2 d (by simp [h])) hc
          rw [fromBE_cons, fromBE_cons, hlen]
          omega

theorem strcmpD_pos_swap : ∀ (l1 l2 : List Nat),
    0 < strcmpD l1 l2 → strcmpD l2 l1 < 0 := by
  intro l1
  induction l1 with
  | nil =>
    intro l2 hc
    cases l2 with
    | nil => simp [strcmpD] at hc
    | cons y ys => simp [strcmpD] at hc
  | cons x xs ih =>
    intro l2 hc
    cases l2 with
    | nil => simp [strcmpD]
    | cons y ys =>
      simp only [strcmpD] at hc ⊢
      by_cases hxy : x < y
      · simp [hxy] at hc
      · simp only [hxy, if_false] at hc
        by_cases hyx : y < x
        · simp [hyx, hxy]
        · simp only [hyx, if_false] at hc
          simp only [hyx, hxy, if_false]
          exact ih ys hc

theorem strcmpD_zero_imp : ∀ (l1 l2 : List Nat),
    strcmpD l1 l2 = 0 → l1 = l2 := by
  intro l1
  induction l1 with
  | nil => intro l2 h; cases l2 with
    | nil => rfl
    | cons b bs => simp [strcmpD] at h
  | cons a as ih =>
    intro l2 h
    cases l2 with
    | nil => simp [strcmpD] at h
    | cons b bs =>
      simp only [strcmpD] at h
      by_cases hab : a < b
      · simp [hab] at h
      · simp only [hab, if_false] at h
        by_cases hba : b < a
        · simp [hba] at h
        · simp only [hba, if_false] at h
          have : a = b := by omega
          rw [this, ih bs h]

/-- The MCL comparison computes the numeric order of the two values. -/
theorem zml_bignum_cmp_mcl_spec (a b : Nat) :
    zml_bignum_cmp_mcl a b =
      (if a < b then (-1 : Int) else if b < a then 1 else 0) := by
  unfold zml_bignum_cmp_mcl
  by_cases hab : a = b
  · subst hab; simp
  · simp only [hab, if_false]
    by_cases hlen : (decRepr a).length < (decRepr b).length
    · have hlt : a < b := decRepr_length_lt_imp a b hlen
      simp [hlen, hlt, Nat.lt_asymm hlt]
    · simp only [hlen, if_false]
      by_cases hlen2 : (decRepr b).length < (decRepr a).length
      · have hlt : b < a := decRepr_length_lt_imp b a hlen2
        simp [hlen2, hlt, Nat.lt_asymm hlt]
      · -- equal lengths: strcmp decides
        have hle : (decRepr a).length = (decRepr b).length := by omega
        simp only [hlen2, if_false]
        rcases lt_trichotomy (strcmpD (decRepr a) (decRepr b)) 0 with hc | hc | hc
        · have := strcmpD_neg_imp 10 (decRepr a) (decRepr b) hle
            (decRepr_digits_lt a) (decRepr_digits_lt b) hc
          rw [fromBE_decRepr, fromBE_decRepr] at this
          simp [hc, this, Nat.lt_asymm this]
        · exact absurd (congrArg (fromBE 10) (strcmpD_zero_imp _ _ hc))
            (by rw [fromBE_decRepr, fromBE_decRepr]; exact hab)
        · have hswap : strcmpD (decRepr b) (decRepr a) < 0 :=
            strcmpD_pos_swap (decRepr a) (decRepr b) hc
          have := strcmpD_neg_imp 10 (decRepr b) (decRepr a) hle.symm
            (decRepr_digits_lt b) (decRepr_digits_lt a) hswap
          rw [fromBE_decRepr, fromBE_decRepr] at this
          have hnc : ¬ strcmpD (decRepr a) (decRepr b) < 0 := by omega
          simp [hnc, hc, this, Nat.lt_asymm this]

end OpenABE

namespace OpenABE

/-! ## Claim C5 — Fr comparison is numeric, not lexicographic -/

/-- C5: the ZP comparison operators `<`, `<=`, `>`, `>=` order two Fr values
    by their numeric value (the MCL backend compares decimal strings by
    length first, which is the numeric order), and in particular Fr(9)
    compares below Fr(10). -/
theorem C5_fr_comparison_is_numeric (x y : ZP) :
    (ZP.ltOp x y = true ↔ x.val < y.val) ∧
    (ZP.leOp x y = true ↔ x.val ≤ y.val) ∧
    (ZP.gtOp x y = true ↔ y.val < x.val) ∧
    (ZP.geOp x y = true ↔ y.val ≤ x.val) ∧
    ZP.ltOp (ZP.fromUint 9) (ZP.fromUint 10) = true := by
  have h := zml_bignum_cmp_mcl_spec x.val y.val
  have h910 := zml_bignum_cmp_mcl_spec 9 10
  refine ⟨?_, ?_, ?_, ?_, ?_⟩
  · unfold ZP.ltOp
    rw [h]
    rcases Nat.lt_trichotomy x.val y.val with hc | hc | hc <;>
      simp [hc, Nat.lt_asymm, Nat.lt_irrefl]
  · unfold ZP.leOp
    rw [h]
    rcases Nat.lt_trichotomy x.val y.val with hc | hc | hc <;>
      simp [hc, Nat.lt_asymm, Nat.lt_irrefl]
    all_goals omega
  · unfold ZP.gtOp
    rw [h]
    rcases Nat.lt_trichotomy x.val y.val with hc | hc | hc <;>
      simp [hc, Nat.lt_asymm, Nat.lt_irrefl]
  · unfold ZP.geOp
    rw [h]
    rcases Nat.lt_trichotomy x.val y.val with hc | hc | hc <;>
      simp [hc, Nat.lt_asymm, Nat.lt_irrefl]
    all_goals omega
  · unfold ZP.ltOp ZP.fromUint
    simp only at h910 ⊢
    rw [h910]
    norm_num

/-! ## Claim C3 — division by a zero Fr -/

/-- C3 (code evaluated at the failing input): dividing any ZP by a
    zero-valued ZP does not surface a `DIVIDE_BY_ZERO` error; the function
    returns normally with an Fr value — `OpenABE_ERROR_DIVIDE_BY_ZERO`
    converted through the implicit `ZP(uint32_t)` constructor, an element
    with no order set. -/
theorem C3_div_by_zero_returns_fr (dbz : Nat) (x y : ZP) (h : y.val = 0) :
    ZP.divOp dbz x y = .ok (ZP.fromUint dbz) := by
  unfold ZP.divOp
  simp [h]

/-- Witness for C3 at Fr(1) ÷ Fr(0) (order 7 for concreteness, the error
    enum's numeric value taken as 23). -/
theorem C3_div_by_zero_returns_fr_witness :
    ZP.divOp 23 ⟨1, 7, true⟩ ⟨0, 7, true⟩ = .ok (ZP.fromUint 23) :=
  C3_div_by_zero_returns_fr 23 ⟨1, 7, true⟩ ⟨0, 7, true⟩ rfl

/-! ## Claim C9 — canonicality of deserialized Fr representatives -/

/-- C9 counterexample: deserializing the serialized form of the value that is
    exactly the BN254 group order leaves the representative equal to the
    order — not reduced into `[0, r)` (the code reduces only on a strict
    `BN_CMP_GT` comparison). -/
theorem C9_exact_order_not_reduced :
    (ZP.deserialize ⟨0, bn254_order, true⟩
        ((OpenABE_ELEMENT_ZP :: 0 :: 32 :: bn254_order_bytes))).val = bn254_order ∧
    ¬ ((ZP.deserialize ⟨0, bn254_order, true⟩
        ((OpenABE_ELEMENT_ZP :: 0 :: 32 :: bn254_order_bytes))).val < bn254_order) := by
  constructor
  · decide
  · decide

/-- C9 amended: the byte constructor always reduces modulo the order, and
    deserialization produces the reduced representative for every encoded
    value other than the order itself. -/
theorem C9_reduction_amended (o : Nat) (ho : 0 < o) (bytes : List Nat)
    (z : ZP) (hz : z.ord = o) (hset : z.orderSet = true)
    (hne : bytes ≠ []) (hlen : bytes.length < 65536)
    (hval : beBytesToNat bytes ≠ o) :
    (ZP.fromBytes bytes o).val = beBytesToNat bytes % o ∧
    (ZP.fromBytes bytes o).val < o ∧
    (ZP.deserialize z
        (OpenABE_ELEMENT_ZP :: bytes.length / 256 :: bytes.length % 256 :: bytes)).val
      = beBytesToNat bytes % o := by
  refine ⟨rfl, Nat.mod_lt _ ho, ?_⟩
  have hpos : 0 < bytes.length := List.length_pos.mpr hne
  simp only [ZP.deserialize, List.headD_cons, List.length_cons,
    List.getD_cons_succ, List.getD_cons_zero, List.drop_succ_cons,
    List.drop_zero]
  rw [if_pos ⟨trivial, by omega⟩]
  rw [if_pos (show bytes.length + 1 + 1 + 1
        = bytes.length / 256 * 256 + bytes.length % 256 + 3 by omega)]
  rw [show bytes.length / 256 * 256 + bytes.length % 256 = bytes.length by omega,
      List.take_length]
  by_cases hcmp : z.ord < beBytesToNat bytes
  · rw [if_pos ⟨hset, hcmp⟩, hz]
  · rw [if_neg (fun hand => hcmp hand.2)]
    have hlt : beBytesToNat bytes < o := by
      rw [hz] at hcmp; omega
    exact (Nat.mod_eq_of_lt hlt).symm

/-- Witness for the amended C9 at order 7 and the single byte 9. -/
theorem C9_reduction_amended_witness :
    (ZP.fromBytes [9] 7).val = beBytesToNat [9] % 7 ∧
    (ZP.fromBytes [9] 7).val < 7 ∧
    (ZP.deserialize ⟨0, 7, true⟩
        (OpenABE_ELEMENT_ZP :: [9].length / 256 :: [9].length % 256 :: [9])).val
      = beBytesToNat [9] % 7 :=
  C9_reduction_amended 7 (by decide) [9] ⟨0, 7, true⟩ rfl rfl
    (by decide) (by decide) (by decide)

/-! ## Claim C4 — multi-pairing -/

/-- C4: `multi_pairing` fails with `INVALID_LENGTH` when the two vectors
    differ in length, and otherwise returns exactly the product of the
    individual pairings (`one` the GT identity, so the empty product is the
    identity). -/
theorem C4_multi_pairing_product {A B C : Type} [DecidableEq C]
    (pair : A → B → C) (mul : C → C → C) (one : C)
    (xs : List A) (ys : List B) (hone : ∀ c, mul one c = c) :
    (xs.length ≠ ys.length →
      multi_pairing pair mul one xs ys = .error .INVALID_LENGTH) ∧
    (xs.length = ys.length →
      multi_pairing pair mul one xs ys
        = .ok ((List.zipWith pair xs ys).foldl mul one)) := by
  constructor
  · intro hne
    unfold multi_pairing multi_bp_map_op
    simp [hne]
  · intro heq
    unfold multi_pairing multi_bp_map_op
    simp only [heq, ne_eq, not_true_eq_false, if_false]
    cases hzip : List.zipWith pair xs ys with
    | nil =>
      simp [hzip, List.foldl]
    | cons p ps =>
      have hfold : (p :: ps).foldl mul one = ps.foldl mul p := by
        simp only [List.foldl_cons, hone]
      simp only [hzip, hfold]
      by_cases hg : ps.foldl mul p = one
      · simp [hg]
      · simp [hg]

/-- Witness for C4 in the multiplicative monoid of naturals: matched vectors
    give the naive product, mismatched lengths give `INVALID_LENGTH`. -/
theorem C4_multi_pairing_product_witness :
    multi_pairing (fun a b : Nat => a * b) (fun a b => a * b) 1 [2, 3] [5, 7]
      = .ok ((List.zipWith (fun a b : Nat => a * b) [2, 3] [5, 7]).foldl
              (fun a b => a * b) 1) ∧
    multi_pairing (fun a b : Nat => a * b) (fun a b => a * b) 1 [2] ([] : List Nat)
      = .error .INVALID_LENGTH := by
  refine ⟨(C4_multi_pairing_product _ _ _ _ _ (fun c => Nat.one_mul c)).2 rfl,
          (C4_multi_pairing_product _ _ _ _ _ (fun c => Nat.one_mul c)).1 (by decide)⟩

end OpenABE

namespace OpenABE

/-! ## Claim C8 — encoding byte lengths match the field-size table -/

theorem minBE_length_le (v fs : Nat) (h : v < 256 ^ fs) :
    (minBE 256 v).length ≤ fs := by
  unfold minBE
  rw [List.length_reverse]
  by_cases hv : v = 0
  · simp [hv]
  · by_contra hgt
    push_neg at hgt
    have h1 : 256 ^ (Nat.digits 256 v).length ≤ 256 * v :=
      Nat.base_pow_length_digits_le 256 v (by norm_num) hv
    have h2 : 256 ^ (fs + 1) ≤ 256 ^ (Nat.digits 256 v).length :=
      Nat.pow_le_pow_right (by norm_num) hgt
    have h3 : (256 : Nat) ^ (fs + 1) = 256 * 256 ^ fs := by ring
    have h4 : 256 * 256 ^ fs ≤ 256 * v := by omega
    have h5 : 256 ^ fs ≤ v := Nat.le_of_mul_le_mul_left h4 (by norm_num)
    omega

theorem field_element_to_bytes_length (v fs : Nat) (h : v < 256 ^ fs) :
    (field_element_to_bytes v fs).length = fs := by
  have hle := minBE_length_le v fs h
  unfold field_element_to_bytes
  rw [List.length_append, List.length_replicate]
  omega

/-- C8: the field-size table gives 32 bytes per Fp element on BN254 and 48 on
    the BLS12-381-compatible curve, so the headerless BN254 Ethereum G1
    encoding is 64 bytes, the ZCash compressed G1 encoding at the
    48-byte field size is 48 bytes, and the BN254 Ethereum G2 encoding is
    128 bytes. -/
theorem C8_encoding_lengths :
    get_field_size OpenABE_BN_P254_ID = 32 ∧
    get_field_size OpenABE_BN_P382_ID = 48 ∧
    (∀ p : G1Point, p.fits 32 → (serializeG1_Ethereum p).length = 64) ∧
    (∀ r : Nat, ∀ p : G1Point, p.fits 48 →
      (serializeG1_ZCash r 48 p).length = 48) ∧
    (∀ p : G2Point, p.fits 32 → (serializeG2_Ethereum p).length = 128) := by
  refine ⟨rfl, rfl, ?_, ?_, ?_⟩
  · intro p hfit
    cases p with
    | inf => simp [serializeG1_Ethereum]
    | pt x y =>
      obtain ⟨hx, hy⟩ := hfit
      simp only [serializeG1_Ethereum, List.length_append,
        field_element_to_bytes_length x 32 hx,
        field_element_to_bytes_length y 32 hy]
  · intro r p hfit
    cases p with
    | inf => simp [serializeG1_ZCash]
    | pt x y =>
      obtain ⟨hx, _⟩ := hfit
      have hlen := field_element_to_bytes_length x 48 hx
      simp only [serializeG1_ZCash]
      cases hfb : field_element_to_bytes x 48 with
      | nil => rw [hfb] at hlen; simp at hlen
      | cons b bs =>
        rw [hfb] at hlen
        simp only [List.length_cons] at hlen ⊢
        omega
  · intro p hfit
    cases p with
    | inf => simp [serializeG2_Ethereum]
    | pt x0 x1 y0 y1 =>
      obtain ⟨h0, h1, h2, h3⟩ := hfit
      simp only [serializeG2_Ethereum, List.length_append,
        field_element_to_bytes_length x0 32 h0,
        field_element_to_bytes_length x1 32 h1,
        field_element_to_bytes_length y0 32 h2,
        field_element_to_bytes_length y1 32 h3]

/-- Witness for C8 at the identity points. -/
theorem C8_encoding_lengths_witness :
    (serializeG1_Ethereum .inf).length = 64 ∧
    (serializeG1_ZCash 0 48 .inf).length = 48 ∧
    (serializeG2_Ethereum .inf).length = 128 :=
  ⟨C8_encoding_lengths.2.2.1 .inf trivial,
   C8_encoding_lengths.2.2.2.1 0 .inf trivial,
   C8_encoding_lengths.2.2.2.2 .inf trivial⟩

/-! ## Claim C1 — the G2 ZCash round-trip -/

/-- C1 (code evaluated at the failing inputs): for every G2 element, the
    bytes emitted by `serializeG2_ZCash` (which delegates to the
    SEC1-uncompressed layout: a lone `0x00` for the identity, a
    `0x04`-prefixed `1 + 4·field_size`-byte block otherwise) are rejected by
    `deserializeG2_ZCash`, which expects the prefixless ZCash layout of
    exactly `2·field_size` or `4·field_size` bytes: the round-trip always
    fails with `SERIALIZATION_FAILED` instead of returning the element. -/
theorem C1_g2_zcash_roundtrip_fails
    (decompress : Nat → Nat → Bool → Option (Nat × Nat)) (r fs : Nat)
    (hfs : 0 < fs) (p : G2Point) (hfit : p.fits fs) :
    deserializeG2_ZCash decompress r fs (serializeG2_ZCash fs p)
      = .error .SERIALIZATION_FAILED := by
  cases p with
  | inf =>
    simp only [serializeG2_ZCash, serializeG2_SEC1, deserializeG2_ZCash]
    rw [if_pos]
    simp only [List.length_cons, List.length_nil]
    omega
  | pt x0 x1 y0 y1 =>
    obtain ⟨h0, h1, h2, h3⟩ := hfit
    have hlen : (serializeG2_ZCash fs (.pt x0 x1 y0 y1)).length = 1 + 4 * fs := by
      simp only [serializeG2_ZCash, serializeG2_SEC1, List.length_cons,
        List.length_append, field_element_to_bytes_length x0 fs h0,
        field_element_to_bytes_length x1 fs h1,
        field_element_to_bytes_length y0 fs h2,
        field_element_to_bytes_length y1 fs h3]
      omega
    have hhead : (serializeG2_ZCash fs (.pt x0 x1 y0 y1)).headD 0 = 0x04 := by
      simp [serializeG2_ZCash, serializeG2_SEC1]
    unfold deserializeG2_ZCash
    rw [if_neg (by omega : ¬ (serializeG2_ZCash fs (.pt x0 x1 y0 y1)).length < 2 * fs)]
    have h40 : ¬ ((4 : Nat) &&& 0x40 ≠ 0) := by decide
    have h80 : ¬ ((4 : Nat) &&& 0x80 ≠ 0) := by decide
    rw [hhead, if_neg h40, if_neg h80,
      if_pos (by omega : (serializeG2_ZCash fs (.pt x0 x1 y0 y1)).length ≠ 4 * fs)]

/-- Witness for C1 at the G2 identity on the 48-byte field size. -/
theorem C1_g2_zcash_roundtrip_fails_witness :
    deserializeG2_ZCash (fun _ _ _ => none) 0 48 (serializeG2_ZCash 48 .inf)
      = .error .SERIALIZATION_FAILED :=
  C1_g2_zcash_roundtrip_fails (fun _ _ _ => none) 0 48 (by decide) .inf trivial

end OpenABE

namespace OpenABE

/-! ## Container helpers -/

theorem fromBE_be32 (n : Nat) (h : n < 2 ^ 32) : fromBE 256 (be32 n) = n := by
  simp only [be32, fromBE, List.foldl_cons, List.foldl_nil]
  omega

theorem smartPack_length (l : List Nat) :
    (smartPack l).length = 4 + l.length := by
  simp [smartPack, be32]
  omega

theorem smartUnpack_smartPack (h rest : List Nat) (hlen : h.length < 2 ^ 32) :
    smartUnpack (smartPack h ++ rest) 0 = (h, 4 + h.length) := by
  unfold smartUnpack smartPack
  have h4 : (be32 h.length).length = 4 := rfl
  have hd2 : (be32 h.length ++ (h ++ rest)).drop (0 + 4) = h ++ rest :=
    List.drop_left' h4
  rw [List.drop_zero, List.append_assoc, List.take_left' h4, fromBE_be32 _ hlen,
    hd2]
  simp [List.take_left]

theorem smartUnpack_smartPack_at (l1 b : List Nat) (hlen : b.length < 2 ^ 32) :
    smartUnpack (l1 ++ smartPack b) l1.length = (b, l1.length + 4 + b.length) := by
  unfold smartUnpack smartPack
  have h4 : (be32 b.length).length = 4 := rfl
  have hd1 : (l1 ++ (be32 b.length ++ b)).drop l1.length = be32 b.length ++ b :=
    List.drop_left _ _
  have hd2 : (l1 ++ (be32 b.length ++ b)).drop (l1.length + 4) = b := by
    rw [← List.append_assoc, List.drop_left' (by simp [h4])]
  rw [hd1, List.take_left' h4, fromBE_be32 _ hlen, hd2]
  simp

/-- The group-handle resolution step of `loadFromBytes`, as a boolean. -/
theorem groupResolve_eq (lv cv av : Nat) (uid body : List Nat) (ue gs : Bool) :
    (if ¬ gs ∧ cv ≠ 0 then
        ({ (⟨lv, cv, av, uid, ue, body, gs⟩ : Ciphertext) with groupSet := true })
      else (⟨lv, cv, av, uid, ue, body, gs⟩ : Ciphertext))
      = ⟨lv, cv, av, uid, ue, body, gs || decide (cv ≠ 0)⟩ := by
  by_cases hgs : ¬ gs ∧ cv ≠ 0
  · rw [if_pos hgs]
    obtain ⟨h1, h2⟩ := hgs
    have hgf : gs = false := by revert h1; cases gs <;> simp
    have hb : (gs || decide (cv ≠ 0)) = true := by rw [hgf]; simp [h2]
    rw [hb]
  · rw [if_neg hgs]
    push_neg at hgs
    by_cases hcg : gs = true
    · have hb : (gs || decide (cv ≠ 0)) = gs := by rw [hcg]; simp
      rw [hb]
    · have hgf : gs = false := by revert hcg; cases gs <;> simp
      have h2 := hgs (by simp [hgf])
      have hb : (gs || decide (cv ≠ 0)) = gs := by rw [hgf, h2]; simp
      rw [hb]

/-- Full evaluation of `loadFromBytes` on a well-formed two-section input
    with a 19-byte header section: the version check, the body check, and the
    success path with the group-handle resolution. -/
theorem loadFromBytes_wellformed (c : Ciphertext) (hdr body : List Nat)
    (hh : hdr.length = 19) (hblen : body.length < 2 ^ 32) :
    c.loadFromBytes (smartPack hdr ++ smartPack body) =
      (if hdr.headD 0 ≤ 170 then
        (if body = [] then
          ⟨{ c with libraryVersion := hdr.headD 0 },
            some (.errCode .INVALID_CIPHERTEXT_BODY), none⟩
        else
          ⟨⟨hdr.headD 0,
            OpenABE_getCurveID (hdr.getD 1 0),
            OpenABE_getSchemeID (hdr.getD 2 0),
            (hdr.drop 3).take UID_LEN,
            c.uidExternal,
            body,
            c.groupSet || decide (OpenABE_getCurveID (hdr.getD 1 0) ≠ 0)⟩,
            none, none⟩)
      else ⟨c, some (.errCode .INVALID_LIBVERSION), none⟩) := by
  have hup1 : smartUnpack (smartPack hdr ++ smartPack body) 0 = (hdr, 4 + 19) := by
    rw [smartUnpack_smartPack _ _ (by omega), hh]
  have hup2 : smartUnpack (smartPack hdr ++ smartPack body) (4 + 19)
      = (body, (smartPack hdr).length + 4 + body.length) := by
    rw [show (4 + 19 : Nat) = (smartPack hdr).length by rw [smartPack_length, hh],
      smartUnpack_smartPack_at _ _ hblen]
  have hlen : 19 ≤ (smartPack hdr ++ smartPack body).length := by
    rw [List.length_append, smartPack_length, smartPack_length, hh]
    omega
  unfold Ciphertext.loadFromBytes
  rw [if_neg (by
    show ¬ (smartPack hdr ++ smartPack body).length < 3 + UID_LEN
    unfold UID_LEN
    omega)]
  rw [hup1]
  simp only
  rw [if_pos (by unfold UID_LEN; omega : hdr.length = 3 + UID_LEN)]
  by_cases hv : hdr.headD 0 ≤ 170
  · rw [if_neg (by unfold OpenABE_LIBRARY_VERSION; exact fun hcon => hcon hv),
      if_pos hv, hup2]
    simp only
    by_cases hb : body = []
    · rw [if_pos (by simp [hb] : ¬ 0 < body.length), if_pos hb]
    · rw [if_neg (by simp [List.length_pos.mpr hb] : ¬ ¬ 0 < body.length),
        if_neg hb, groupResolve_eq]
  · rw [if_pos (by unfold OpenABE_LIBRARY_VERSION; exact fun hcon => hv hcon),
      if_neg hv]

end OpenABE

namespace OpenABE

/-! ## Claim C6 — container header round-trip -/

/-- C6 counterexample: a container whose externally supplied uid has 17 bytes
    (stored verbatim, as the constructor promises) exports a 20-byte header
    section; `loadFromBytes` requires the header section to be exactly 19
    bytes, takes the "invalid ciphertext header" branch and applies none of
    the fields, so the loaded header differs from the exported one. -/
theorem C6_roundtrip_fails_for_17_byte_uid :
    (Ciphertext.init.loadFromBytes
        (Ciphertext.exportToBytes
          ⟨170, 0x6F, 1, List.replicate 17 9, true, [1], false⟩)).state.curveID
      ≠ (⟨170, 0x6F, 1, List.replicate 17 9, true, [1], false⟩ : Ciphertext).curveID ∧
    (Ciphertext.init.loadFromBytes
        (Ciphertext.exportToBytes
          ⟨170, 0x6F, 1, List.replicate 17 9, true, [1], false⟩)).log
      = some .invalidHeader := by
  constructor
  · decide
  · decide

/-- C6 amended: with header fields set and an external uid of exactly 16
    bytes (stored verbatim), loading the exported bytes reproduces every
    header field of the container. -/
theorem C6_header_roundtrip_16_byte_uid (c0 C : Ciphertext)
    (huid : C.uid.length = 16) (hlv : C.libraryVersion ≤ 170)
    (hcv : C.curveID ∈ validCurveIDs) (hcb : C.curveID < 256)
    (hab : C.algorithmID < 256) (hbody : C.body ≠ [])
    (hblen : C.body.length < 2 ^ 32) :
    (c0.loadFromBytes C.exportToBytes).state.libraryVersion = C.libraryVersion ∧
    (c0.loadFromBytes C.exportToBytes).state.curveID = C.curveID ∧
    (c0.loadFromBytes C.exportToBytes).state.algorithmID = C.algorithmID ∧
    (c0.loadFromBytes C.exportToBytes).state.uid = C.uid ∧
    (c0.loadFromBytes C.exportToBytes).state.body = C.body ∧
    (c0.loadFromBytes C.exportToBytes).log = none ∧
    (c0.loadFromBytes C.exportToBytes).thrown = none := by
  have hexp : C.exportToBytes = smartPack C.getHeader ++ smartPack C.body := rfl
  have hhdr : C.getHeader.length = 19 := by
    simp [Ciphertext.getHeader, huid]
  have hload := loadFromBytes_wellformed c0 C.getHeader C.body hhdr hblen
  have hhead : C.getHeader.headD 0 = C.libraryVersion := by
    simp [Ciphertext.getHeader]
    omega
  have hget1 : C.getHeader.getD 1 0 = C.curveID := by
    simp [Ciphertext.getHeader]
    omega
  have hget2 : C.getHeader.getD 2 0 = C.algorithmID := by
    simp [Ciphertext.getHeader]
    omega
  have hdrop : (C.getHeader.drop 3).take UID_LEN = C.uid := by
    have : C.getHeader.drop 3 = C.uid := rfl
    rw [this, show UID_LEN = C.uid.length from huid.symm, List.take_length]
  rw [hhead, hget1, hget2, hdrop] at hload
  rw [if_pos hlv, if_neg hbody] at hload
  rw [hexp, hload]
  refine ⟨rfl, ?_, rfl, rfl, rfl, rfl, rfl⟩
  show OpenABE_getCurveID C.curveID = C.curveID
  unfold OpenABE_getCurveID
  rw [if_pos hcv]

/-- Witness for the amended C6. -/
theorem C6_header_roundtrip_16_byte_uid_witness :
    ((Ciphertext.init.loadFromBytes
        (Ciphertext.exportToBytes
          ⟨170, 0x6F, 1, List.replicate 16 9, true, [1], false⟩)).state.libraryVersion
      = (⟨170, 0x6F, 1, List.replicate 16 9, true, [1], false⟩ : Ciphertext).libraryVersion) ∧
    ((Ciphertext.init.loadFromBytes
        (Ciphertext.exportToBytes
          ⟨170, 0x6F, 1, List.replicate 16 9, true, [1], false⟩)).state.curveID
      = (⟨170, 0x6F, 1, List.replicate 16 9, true, [1], false⟩ : Ciphertext).curveID) ∧
    ((Ciphertext.init.loadFromBytes
        (Ciphertext.exportToBytes
          ⟨170, 0x6F, 1, List.replicate 16 9, true, [1], false⟩)).state.algorithmID
      = (⟨170, 0x6F, 1, List.replicate 16 9, true, [1], false⟩ : Ciphertext).algorithmID) ∧
    ((Ciphertext.init.loadFromBytes
        (Ciphertext.exportToBytes
          ⟨170, 0x6F, 1, List.replicate 16 9, true, [1], false⟩)).state.uid
      = (⟨170, 0x6F, 1, List.replicate 16 9, true, [1], false⟩ : Ciphertext).uid) ∧
    ((Ciphertext.init.loadFromBytes
        (Ciphertext.exportToBytes
          ⟨170, 0x6F, 1, List.replicate 16 9, true, [1], false⟩)).state.body
      = (⟨170, 0x6F, 1, List.replicate 16 9, true, [1], false⟩ : Ciphertext).body) ∧
    ((Ciphertext.init.loadFromBytes
        (Ciphertext.exportToBytes
          ⟨170, 0x6F, 1, List.replicate 16 9, true, [1], false⟩)).log = none) ∧
    ((Ciphertext.init.loadFromBytes
        (Ciphertext.exportToBytes
          ⟨170, 0x6F, 1, List.replicate 16 9, true, [1], false⟩)).thrown = none) :=
  C6_header_roundtrip_16_byte_uid Ciphertext.init
    ⟨170, 0x6F, 1, List.replicate 16 9, true, [1], false⟩
    (by decide) (by decide) (by decide) (by decide) (by decide) (by decide)
    (by decide)

/-! ## Claim C7 — typed errors from loadFromBytes -/

/-- C7 counterexample: on a header whose version byte is 200 (exceeding the
    current library version 170), `loadFromBytes` prints the
    `INVALID_LIBVERSION` report to stderr but surfaces no typed error to the
    caller — the C++ function returns `void` and throws nothing. -/
theorem C7_no_typed_error_on_bad_version :
    (Ciphertext.init.loadFromBytes
        (smartPack (200 :: 0x6F :: 1 :: List.replicate 16 0) ++ smartPack [1])).log
      = some (.errCode .INVALID_LIBVERSION) ∧
    (Ciphertext.init.loadFromBytes
        (smartPack (200 :: 0x6F :: 1 :: List.replicate 16 0) ++ smartPack [1])).thrown
      = none := by
  constructor
  · decide
  · decide

/-- C7 amended: when the header section parses and its lib-version byte
    exceeds the current version, the load aborts with only the
    `INVALID_LIBVERSION` stderr report, leaving the container untouched and
    throwing nothing; when the version is acceptable and the body section is
    empty, it aborts with only the `INVALID_CIPHERTEXT_BODY` stderr report
    (the version already applied) and throws nothing. -/
theorem C7_load_errors_reported_not_thrown (c : Ciphertext)
    (hdr body : List Nat) (hh : hdr.length = 19)
    (hblen : body.length < 2 ^ 32) :
    (170 < hdr.headD 0 →
      c.loadFromBytes (smartPack hdr ++ smartPack body)
        = ⟨c, some (.errCode .INVALID_LIBVERSION), none⟩) ∧
    (hdr.headD 0 ≤ 170 → body = [] →
      c.loadFromBytes (smartPack hdr ++ smartPack body)
        = ⟨{ c with libraryVersion := hdr.headD 0 },
            some (.errCode .INVALID_CIPHERTEXT_BODY), none⟩) := by
  have hload := loadFromBytes_wellformed c hdr body hh hblen
  constructor
  · intro hv
    rw [hload, if_neg (by omega)]
  · intro hv hb
    rw [hload, if_pos hv, if_pos hb]

/-- Witness for the amended C7, both branches. -/
theorem C7_load_errors_reported_not_thrown_witness :
    (Ciphertext.init.loadFromBytes
        (smartPack (200 :: 0x6F :: 1 :: List.replicate 16 0) ++ smartPack [1])
      = ⟨Ciphertext.init, some (.errCode .INVALID_LIBVERSION), none⟩) ∧
    (Ciphertext.init.loadFromBytes
        (smartPack (100 :: 0x6F :: 1 :: List.replicate 16 0) ++ smartPack [])
      = ⟨{ Ciphertext.init with
            libraryVersion := (100 :: 0x6F :: 1 :: List.replicate 16 0).headD 0 },
          some (.errCode .INVALID_CIPHERTEXT_BODY), none⟩) :=
  ⟨(C7_load_errors_reported_not_thrown Ciphertext.init
      (200 :: 0x6F :: 1 :: List.replicate 16 0) [1] (by decide) (by decide)).1
      (by decide),
   (C7_load_errors_reported_not_thrown Ciphertext.init
      (100 :: 0x6F :: 1 :: List.replicate 16 0) [] (by decide) (by decide)).2
      (by decide) rfl⟩

/-! ## Claim C10 — short external uids are ignored -/

/-- C10: constructing a ciphertext container with an external uid shorter
    than 16 bytes behaves exactly like the default construction: the stored
    uid is 16 zero bytes, the external flag stays unset, no error is raised
    (the constructor has no failure path), and a later `setHeader` with an
    RNG overwrites the uid with 16 fresh bytes drawn from that RNG. -/
theorem C10_short_uid_ignored (uid : List Nat) (h : uid.length < 16) :
    Ciphertext.mkWithUid uid = Ciphertext.init ∧
    (Ciphertext.mkWithUid uid).uid = List.replicate 16 0 ∧
    (Ciphertext.mkWithUid uid).uidExternal = false ∧
    (∀ cid sid : Nat, ∀ rng : Nat → Nat,
      (Ciphertext.mkWithUid uid).setHeaderRng cid sid rng
        = Ciphertext.init.setHeaderRng cid sid rng ∧
      ((Ciphertext.mkWithUid uid).setHeaderRng cid sid rng).uid
        = rngBytes rng 16) := by
  have hcon : Ciphertext.mkWithUid uid = Ciphertext.init := by
    unfold Ciphertext.mkWithUid
    rw [if_neg (by unfold UID_LEN; omega)]
  refine ⟨hcon, by rw [hcon]; rfl, by rw [hcon]; rfl, ?_⟩
  intro cid sid rng
  refine ⟨by rw [hcon], ?_⟩
  rw [hcon]
  rfl

/-- Witness for C10 at a 3-byte uid. -/
theorem C10_short_uid_ignored_witness :
    Ciphertext.mkWithUid [1, 2, 3] = Ciphertext.init ∧
    (Ciphertext.mkWithUid [1, 2, 3]).uid = List.replicate 16 0 ∧
    (Ciphertext.mkWithUid [1, 2, 3]).uidExternal = false ∧
    (∀ cid sid : Nat, ∀ rng : Nat → Nat,
      (Ciphertext.mkWithUid [1, 2, 3]).setHeaderRng cid sid rng
        = Ciphertext.init.setHeaderRng cid sid rng ∧
      ((Ciphertext.mkWithUid [1, 2, 3]).setHeaderRng cid sid rng).uid
        = rngBytes rng 16) :=
  C10_short_uid_ignored [1, 2, 3] (by decide)

end OpenABE

namespace OpenABE

/-! ## Sorting lemmas for policy canonicalization -/

theorem canonicalizeList_eq_map (cs : List TreeNode) :
    canonicalizeList cs = cs.map canonicalizeNode := by
  induction cs with
  | nil => rfl
  | cons c cs ih => rw [canonicalizeList, ih, List.map_cons]

theorem mem_insertSorted (a x : TreeNode) :
    ∀ l : List TreeNode, a ∈ insertSorted x l ↔ a = x ∨ a ∈ l := by
  intro l
  induction l with
  | nil => simp [insertSorted]
  | cons y ys ih =>
    unfold insertSorted
    by_cases h : nodeToString x ≤ nodeToString y
    · simp [h]
    · simp only [h, if_false, List.mem_cons, ih]
      tauto

theorem mem_sortNodes (a : TreeNode) :
    ∀ l : List TreeNode, a ∈ sortNodes l ↔ a ∈ l := by
  intro l
  induction l with
  | nil => simp [sortNodes]
  | cons x xs ih =>
    unfold sortNodes
    rw [mem_insertSorted, ih, List.mem_cons]

theorem pairwise_insertSorted (x : TreeNode) :
    ∀ l : List TreeNode,
    List.Pairwise (fun a b => nodeToString a ≤ nodeToString b) l →
    List.Pairwise (fun a b => nodeToString a ≤ nodeToString b)
      (insertSorted x l) := by
  intro l
  induction l with
  | nil =>
    intro _
    simp [insertSorted]
  | cons y ys ih =>
    intro hp
    rw [List.pairwise_cons] at hp
    obtain ⟨hy, hys⟩ := hp
    unfold insertSorted
    by_cases h : nodeToString x ≤ nodeToString y
    · rw [if_pos h, List.pairwise_cons]
      refine ⟨?_, List.pairwise_cons.mpr ⟨hy, hys⟩⟩
      intro b hb
      rcases List.mem_cons.mp hb with hb | hb
      · rw [hb]; exact h
      · exact le_trans h (hy b hb)
    · rw [if_neg h, List.pairwise_cons]
      refine ⟨?_, ih hys⟩
      intro b hb
      rcases (mem_insertSorted b x ys).mp hb with hb | hb
      · rw [hb]
        exact le_of_not_le h
      · exact hy b hb

theorem sortNodes_sorted : ∀ l : List TreeNode,
    List.Pairwise (fun a b => nodeToString a ≤ nodeToString b) (sortNodes l) := by
  intro l
  induction l with
  | nil => simp [sortNodes]
  | cons x xs ih => exact pairwise_insertSorted x _ ih

theorem insertSorted_of_le_head (x : TreeNode) (l : List TreeNode)
    (h : ∀ b ∈ l, nodeToString x ≤ nodeToString b) :
    insertSorted x l = x :: l := by
  cases l with
  | nil => rfl
  | cons y ys =>
    unfold insertSorted
    rw [if_pos (h y (by simp))]

theorem sortNodes_of_sorted : ∀ l : List TreeNode,
    List.Pairwise (fun a b => nodeToString a ≤ nodeToString b) l →
    sortNodes l = l := by
  intro l
  induction l with
  | nil => intro _; rfl
  | cons x xs ih =>
    intro hp
    rw [List.pairwise_cons] at hp
    obtain ⟨hx, hxs⟩ := hp
    unfold sortNodes
    rw [ih hxs, insertSorted_of_le_head x xs hx]

theorem mem_sortChildren (a : TreeNode) (cs : List TreeNode) :
    a ∈ sortChildren cs ↔ a ∈ cs := by
  unfold sortChildren
  by_cases h : cs.length ≤ 1
  · rw [if_pos h]
  · rw [if_neg h]
    exact mem_sortNodes a cs

theorem sortChildren_sorted (cs : List TreeNode) :
    List.Pairwise (fun a b => nodeToString a ≤ nodeToString b)
      (sortChildren cs) := by
  unfold sortChildren
  by_cases h : cs.length ≤ 1
  · rw [if_pos h]
    cases cs with
    | nil => simp
    | cons c cs' =>
      cases cs' with
      | nil => simp
      | cons d cs'' => simp at h
  · rw [if_neg h]
    exact sortNodes_sorted cs

theorem sortChildren_of_sorted (cs : List TreeNode)
    (h : List.Pairwise (fun a b => nodeToString a ≤ nodeToString b) cs) :
    sortChildren cs = cs := by
  unfold sortChildren
  by_cases hl : cs.length ≤ 1
  · rw [if_pos hl]
  · rw [if_neg hl]
    exact sortNodes_of_sorted cs h

theorem canonicalList_iff : ∀ cs : List TreeNode,
    CanonicalList cs ↔ ∀ c ∈ cs, CanonicalNode c := by
  intro cs
  induction cs with
  | nil => simp [CanonicalList]
  | cons c cs' ih =>
    rw [CanonicalList, ih]
    constructor
    · rintro ⟨h1, h2⟩ d hd
      rcases List.mem_cons.mp hd with hd | hd
      · rw [hd]; exact h1
      · exact h2 d hd
    · intro h
      exact ⟨h c (by simp), fun d hd => h d (by simp [hd])⟩

end OpenABE

namespace OpenABE

/-! ## Flattening lemmas for policy canonicalization -/

theorem sizeOf_lt_of_mem_children {c : TreeNode} {g : GateKind} {k : Nat}
    {cs : List TreeNode} (h : c ∈ cs) :
    sizeOf c < sizeOf (TreeNode.gate g k cs) := by
  have h1 := List.sizeOf_lt_of_mem h
  simp only [TreeNode.gate.sizeOf_spec]
  omega

theorem mem_flattenStep (g : GateKind) (a : TreeNode) :
    ∀ cs : List TreeNode, a ∈ flattenStep g cs →
    ∃ c ∈ cs, (typeOfNode c = some g ∧ a ∈ childrenOf c) ∨
              (typeOfNode c ≠ some g ∧ a = c) := by
  intro cs
  induction cs with
  | nil => intro h; simp [flattenStep] at h
  | cons c cs' ih =>
    intro h
    unfold flattenStep at h
    rcases List.mem_append.mp h with h | h
    · by_cases hc : typeOfNode c = some g
      · rw [if_pos hc] at h
        exact ⟨c, by simp, Or.inl ⟨hc, h⟩⟩
      · rw [if_neg hc] at h
        simp only [List.mem_singleton] at h
        exact ⟨c, by simp, Or.inr ⟨hc, h⟩⟩
    · obtain ⟨c', hc', hor⟩ := ih h
      exact ⟨c', by simp [hc'], hor⟩

/-- Children of a canonical node are canonical. -/
theorem children_canonical {c : TreeNode} (hc : CanonicalNode c) :
    ∀ d ∈ childrenOf c, CanonicalNode d := by
  cases c with
  | leaf pre lbl => intro d hd; simp [childrenOf] at hd
  | gate g k cs =>
    rw [CanonicalNode] at hc
    intro d hd
    exact (canonicalList_iff cs).mp hc.1 d hd

theorem flatten_preserves_canonical (g : GateKind) (cs : List TreeNode)
    (hcs : ∀ c ∈ cs, CanonicalNode c) :
    ∀ a ∈ flattenAssociative g cs, CanonicalNode a := by
  intro a ha
  unfold flattenAssociative at ha
  by_cases hg : g = GateKind.threshGate
  · rw [if_pos hg] at ha
    exact hcs a ha
  · rw [if_neg hg] at ha
    by_cases hany : cs.any (fun c => typeOfNode c = some g)
    · rw [if_pos hany] at ha
      obtain ⟨c, hc, hor⟩ := mem_flattenStep g a cs ha
      rcases hor with ⟨_, hmem⟩ | ⟨_, heq⟩
      · exact children_canonical (hcs c hc) a hmem
      · rw [heq]; exact hcs c hc
    · rw [if_neg hany] at ha
      exact hcs a ha

theorem flatten_no_same_type (g : GateKind) (hg : g ≠ GateKind.threshGate)
    (cs : List TreeNode) (hcs : ∀ c ∈ cs, CanonicalNode c) :
    ∀ a ∈ flattenAssociative g cs, typeOfNode a ≠ some g := by
  intro a ha
  unfold flattenAssociative at ha
  rw [if_neg hg] at ha
  by_cases hany : cs.any (fun c => typeOfNode c = some g)
  · rw [if_pos hany] at ha
    obtain ⟨c, hc, hor⟩ := mem_flattenStep g a cs ha
    rcases hor with ⟨hct, hmem⟩ | ⟨hct, heq⟩
    · -- a is a child of the same-type child c: c is canonical, so none of
      -- its children shares c's (= g's) type
      cases c with
      | leaf pre lbl => simp [typeOfNode] at hct
      | gate g' k' cs' =>
        have hgg : g' = g := by
          simp [typeOfNode] at hct
          exact hct
        have hcanon := hcs _ hc
        rw [CanonicalNode] at hcanon
        have := hcanon.2.1 (by rw [hgg]; exact hg) a
          (by simpa [childrenOf] using hmem)
        rw [hgg] at this
        exact this
    · rw [heq]; exact hct
  · rw [if_neg hany] at ha
    intro hat
    rw [List.any_eq_true] at hany
    exact hany ⟨a, ha, by simp [hat]⟩

theorem flatten_of_no_same_type (g : GateKind) (cs : List TreeNode)
    (h : g ≠ GateKind.threshGate → ∀ c ∈ cs, typeOfNode c ≠ some g) :
    flattenAssociative g cs = cs := by
  unfold flattenAssociative
  by_cases hg : g = GateKind.threshGate
  · rw [if_pos hg]
  · rw [if_neg hg, if_neg]
    rw [List.any_eq_true]
    rintro ⟨c, hc, hct⟩
    exact h hg c hc (by simpa using hct)

end OpenABE

namespace OpenABE

/-! ## Canonicalization produces canonical trees and fixes them -/

theorem canonicalizeNode_canonical_aux :
    ∀ n : Nat, ∀ t : TreeNode, sizeOf t ≤ n →
    CanonicalNode (canonicalizeNode t) := by
  intro n
  induction n using Nat.strong_induction_on with
  | _ n ih =>
    intro t ht
    cases t with
    | leaf pre lbl =>
      rw [canonicalizeNode]
      rw [CanonicalNode]
      trivial
    | gate g k cs =>
      rw [canonicalizeNode]
      have hmem : ∀ c ∈ canonicalizeList cs, CanonicalNode c := by
        intro c hc
        rw [canonicalizeList_eq_map] at hc
        obtain ⟨d, hd, hdc⟩ := List.mem_map.mp hc
        have hsz : sizeOf d < sizeOf (TreeNode.gate g k cs) :=
          sizeOf_lt_of_mem_children hd
      -- apply the strong induction hypothesis at the smaller size
        rcases Nat.lt_or_ge 0 n with hn | hn
        · rw [← hdc]
          exact ih (n - 1) (by omega) d (by omega)
        · -- n = 0 is impossible: sizeOf is positive
          exfalso
          have : 0 < sizeOf (TreeNode.gate g k cs) := by
            simp only [TreeNode.gate.sizeOf_spec]
            omega
          omega
      have hflat : ∀ a ∈ flattenAssociative g (canonicalizeList cs),
          CanonicalNode a :=
        flatten_preserves_canonical g _ hmem
      rw [CanonicalNode]
      refine ⟨?_, ?_, sortChildren_sorted _⟩
      · rw [canonicalList_iff]
        intro c hc
        exact hflat c ((mem_sortChildren c _).mp hc)
      · intro hg c hc
        exact flatten_no_same_type g hg _ hmem c ((mem_sortChildren c _).mp hc)

theorem canonicalizeNode_canonical (t : TreeNode) :
    CanonicalNode (canonicalizeNode t) :=
  canonicalizeNode_canonical_aux (sizeOf t) t (Nat.le_refl _)

theorem canonicalizeNode_fixes_aux :
    ∀ n : Nat, ∀ t : TreeNode, sizeOf t ≤ n →
    CanonicalNode t → canonicalizeNode t = t := by
  intro n
  induction n using Nat.strong_induction_on with
  | _ n ih =>
    intro t ht hcanon
    cases t with
    | leaf pre lbl => rw [canonicalizeNode]
    | gate g k cs =>
      rw [CanonicalNode] at hcanon
      obtain ⟨hlist, hnotype, hsorted⟩ := hcanon
      have hcs : ∀ c ∈ cs, CanonicalNode c := (canonicalList_iff cs).mp hlist
      have hfix : ∀ c ∈ cs, canonicalizeNode c = c := by
        intro c hc
        have hsz : sizeOf c < sizeOf (TreeNode.gate g k cs) :=
          sizeOf_lt_of_mem_children hc
        rcases Nat.lt_or_ge 0 n with hn | hn
        · exact ih (n - 1) (by omega) c (by omega) (hcs c hc)
        · exfalso
          have : 0 < sizeOf (TreeNode.gate g k cs) := by
            simp only [TreeNode.gate.sizeOf_spec]
            omega
          omega
      have hcl : ∀ ds : List TreeNode, (∀ d ∈ ds, canonicalizeNode d = d) →
          canonicalizeList ds = ds := by
        intro ds
        induction ds with
        | nil => intro _; rfl
        | cons d ds' ihd =>
          intro hf
          rw [canonicalizeList, hf d (by simp),
            ihd (fun e he => hf e (by simp [he]))]
      rw [canonicalizeNode, hcl cs hfix,
        flatten_of_no_same_type g cs hnotype,
        sortChildren_of_sorted cs hsorted]

theorem canonicalizeNode_fixes (t : TreeNode) (h : CanonicalNode t) :
    canonicalizeNode t = t :=
  canonicalizeNode_fixes_aux (sizeOf t) t (Nat.le_refl _) h

/-! ## Claim C2 — canonicalization is idempotent -/

/-- C2: for every policy tree, applying `canonicalize` twice gives the same
    result as applying it once — the tree is identical, and so is its
    rendered string. -/
theorem C2_canonicalize_idempotent (p : Option TreeNode) :
    canonicalizePolicy (canonicalizePolicy p) = canonicalizePolicy p ∧
    policyToString (canonicalizePolicy (canonicalizePolicy p))
      = policyToString (canonicalizePolicy p) := by
  have hmain : canonicalizePolicy (canonicalizePolicy p) = canonicalizePolicy p := by
    cases p with
    | none => rfl
    | some t =>
      show some (canonicalizeNode (canonicalizeNode t)) = some (canonicalizeNode t)
      rw [canonicalizeNode_fixes (canonicalizeNode t)
        (canonicalizeNode_canonical t)]
  exact ⟨hmain, by rw [hmain]⟩

end OpenABE
